import Mathlib

/-!
Shallow embedding of the ink! contract `voting_system` (src/voting_system/lib.rs).

The contract state is a pair of key-value mappings (proposals by id, voter
marks by (id, account)), a `u32` proposal counter, and an owner account fixed
at construction. Machine integers are modelled as `Nat` with explicit
saturation at `2 ^ 32 - 1` where the source uses `u32::saturating_add`.
Account ids are abstract identities; only equality is used by the source, so
they are modelled as `Nat`. Each message takes the contract state and the
caller identity supplied by the environment and returns the new state, the
`Result` value, and the list of events emitted during the call.
-/

abbrev AccountId := Nat

def U32_MAX : Nat := 2 ^ 32 - 1

/-- Saturating `u32` addition, as in `u32::saturating_add`. -/
def satAdd (a b : Nat) : Nat := min (a + b) U32_MAX

structure Proposal where
  description : String
  votes : Nat
deriving DecidableEq

inductive Error where
  | OnlyOwnerCanPerformAction
  | ProposalDoesNotExist
  | AlreadyVoted
deriving DecidableEq

inductive Event where
  | ProposalCreated (id : Nat) (title : String)
  | VoteCast (proposal_id : Nat) (voter : AccountId)
deriving DecidableEq

/-- The `ink::storage::Mapping` key-value store: total lookup returning
`Option`, point update by `insert`. -/
abbrev Mapping (K V : Type) : Type := K → Option V

def Mapping.empty {K V : Type} : Mapping K V := fun _ => none

def Mapping.insert {K V : Type} [DecidableEq K] (m : Mapping K V) (k : K) (v : V) :
    Mapping K V :=
  fun q => if q = k then some v else m q

structure VotingSystem where
  proposals : Mapping Nat Proposal
  voters : Mapping (Nat × AccountId) Bool
  proposal_count : Nat
  owner : AccountId

/-- The constructor `new`: empty mappings, zero counter, owner is the caller. -/
def VotingSystem.new (caller : AccountId) : VotingSystem :=
  { proposals := Mapping.empty
    voters := Mapping.empty
    proposal_count := 0
    owner := caller }

/-- Message `create_proposal`: only the owner may create; the new proposal is
stored at id `proposal_count`, the counter is bumped with saturating add, a
`ProposalCreated` event is emitted, and the allocated id is returned. -/
def create_proposal (s : VotingSystem) (caller : AccountId) (title : String) :
    VotingSystem × Except Error Nat × List Event :=
  if caller ≠ s.owner then
    (s, Except.error Error.OnlyOwnerCanPerformAction, [])
  else
    let id := s.proposal_count
    let proposal : Proposal := { description := title, votes := 0 }
    ({ s with
        proposals := Mapping.insert s.proposals id proposal
        proposal_count := satAdd s.proposal_count 1 },
     Except.ok id,
     [Event.ProposalCreated id title])

/-- Message `vote`: the proposal must exist and the caller must not have voted
on it before; on success the vote counter is bumped with saturating add, the
caller is marked as a voter, and a `VoteCast` event is emitted. -/
def vote (s : VotingSystem) (caller : AccountId) (proposal_id : Nat) :
    VotingSystem × Except Error Unit × List Event :=
  match s.proposals proposal_id with
  | none => (s, Except.error Error.ProposalDoesNotExist, [])
  | some proposal =>
    if (s.voters (proposal_id, caller)).getD false then
      (s, Except.error Error.AlreadyVoted, [])
    else
      ({ s with
          proposals := Mapping.insert s.proposals proposal_id
            { proposal with votes := satAdd proposal.votes 1 }
          voters := Mapping.insert s.voters (proposal_id, caller) true },
       Except.ok (),
       [Event.VoteCast proposal_id caller])

/-- Message `get_proposal`: read-only lookup of description and vote count. -/
def get_proposal (s : VotingSystem) (proposal_id : Nat) : Except Error (String × Nat) :=
  match s.proposals proposal_id with
  | none => Except.error Error.ProposalDoesNotExist
  | some proposal => Except.ok (proposal.description, proposal.votes)

/-- Message `total_proposals`: read-only access to the proposal counter. -/
def total_proposals (s : VotingSystem) : Nat := s.proposal_count

/-! Traces of message calls, for reachability and counting claims. -/

inductive Op where
  | create (caller : AccountId) (title : String)
  | voteFor (caller : AccountId) (proposal_id : Nat)
  | get (caller : AccountId) (proposal_id : Nat)
  | total (caller : AccountId)

/-- State after one message call; the read-only messages take `&self` in the
source and leave the state untouched. -/
def execOp (s : VotingSystem) : Op → VotingSystem
  | Op.create c t => (create_proposal s c t).1
  | Op.voteFor c k => (vote s c k).1
  | Op.get _ _ => s
  | Op.total _ => s

/-- Events emitted by one message call. -/
def opEvents (s : VotingSystem) : Op → List Event
  | Op.create c t => (create_proposal s c t).2.2
  | Op.voteFor c k => (vote s c k).2.2
  | Op.get _ _ => []
  | Op.total _ => []

def execOps (s : VotingSystem) (ops : List Op) : VotingSystem :=
  ops.foldl execOp s

/-- States reachable from the constructor by some sequence of message calls. -/
def Reachable (s : VotingSystem) : Prop :=
  ∃ (o : AccountId) (ops : List Op), s = execOps (VotingSystem.new o) ops

def isOkE {ε α : Type} : Except ε α → Bool
  | Except.ok _ => true
  | Except.error _ => false

/-- Number of successful `create_proposal` calls along a trace. -/
def countCreates : VotingSystem → List Op → Nat
  | _, [] => 0
  | s, op :: ops =>
      (match op with
        | Op.create c t => if isOkE (create_proposal s c t).2.1 then 1 else 0
        | _ => 0) + countCreates (execOp s op) ops

/-- A sequence of `vote` calls on one proposal by a list of callers; the flag
is `true` when every call in the sequence succeeded. -/
def voteSeq (s : VotingSystem) (k : Nat) : List AccountId → VotingSystem × Bool
  | [] => (s, true)
  | c :: cs =>
      let r := vote s c k
      let rest := voteSeq r.1 k cs
      (rest.1, isOkE r.2.1 && rest.2)

/-- A concrete state with one proposal (id 0, no votes), used in witnesses. -/
def sampleOne : VotingSystem := (create_proposal (VotingSystem.new 0) 0 "A").1

/-- The state invariant maintained by every message call: the counter is in
`u32` range, ids below the counter are populated, ids above it are empty, the
slot at the counter itself can be populated only once the counter has
saturated at `U32_MAX`, and voter marks refer to populated slots. -/
def StateInv (s : VotingSystem) : Prop :=
  s.proposal_count ≤ U32_MAX ∧
  (∀ id, id < s.proposal_count → (s.proposals id).isSome = true) ∧
  (∀ id, s.proposal_count < id → s.proposals id = none) ∧
  ((s.proposals s.proposal_count).isSome = true → s.proposal_count = U32_MAX) ∧
  (∀ p v, (s.voters (p, v)).isSome = true →
    p < s.proposal_count ∨ (p = s.proposal_count ∧ s.proposal_count = U32_MAX))

/-- The trace that saturates the proposal counter: `2 ^ 32` successful
creations from a fresh contract. -/
def satTrace : List Op := List.replicate (2 ^ 32) (Op.create 0 "A")

/-- The state reached by `satTrace`: counter clamped at `U32_MAX` and a
record stored at id `U32_MAX` itself. -/
def satState : VotingSystem := execOps (VotingSystem.new 0) satTrace

/-! Basic lemmas about the embedding. -/

theorem Mapping.insert_self {K V : Type} [DecidableEq K] (m : Mapping K V) (k : K) (v : V) :
    Mapping.insert m k v k = some v := by
  simp [Mapping.insert]

theorem Mapping.insert_ne {K V : Type} [DecidableEq K] (m : Mapping K V) (k q : K) (v : V)
    (h : q ≠ k) : Mapping.insert m k v q = m q := by
  simp [Mapping.insert, h]

/-- C1: a caller different from the owner gets `OnlyOwnerCanPerformAction`
from `create_proposal`, the state (proposals, voters, counter, owner) is
returned unchanged, no event is emitted, and `total_proposals` is unchanged. -/
theorem create_proposal_nonowner_rejected (s : VotingSystem) (caller : AccountId)
    (x : String) (h : caller ≠ s.owner) :
    create_proposal s caller x = (s, Except.error Error.OnlyOwnerCanPerformAction, []) ∧
    total_proposals (create_proposal s caller x).1 = total_proposals s := by
  simp [create_proposal, h, total_proposals]

theorem create_proposal_nonowner_rejected_witness :
    create_proposal (VotingSystem.new 0) 1 "A" =
      (VotingSystem.new 0, Except.error Error.OnlyOwnerCanPerformAction, []) ∧
    total_proposals (create_proposal (VotingSystem.new 0) 1 "A").1 =
      total_proposals (VotingSystem.new 0) :=
  create_proposal_nonowner_rejected (VotingSystem.new 0) 1 "A" (by decide)

/-- C3: when `create_proposal` called with description `x` returns `Ok k`,
`get_proposal k` on the resulting state returns `Ok (x, 0)`. -/
theorem create_then_get (s : VotingSystem) (caller : AccountId) (x : String) (k : Nat)
    (h : (create_proposal s caller x).2.1 = Except.ok k) :
    get_proposal (create_proposal s caller x).1 k = Except.ok (x, 0) := by
  by_cases hc : caller ≠ s.owner
  · simp [create_proposal, hc] at h
  · simp only [create_proposal, hc, if_false, ite_false, if_neg] at h ⊢
    simp only [Except.ok.injEq] at h
    subst h
    simp [get_proposal, Mapping.insert_self]

theorem create_then_get_witness :
    (create_proposal (VotingSystem.new 0) 0 "X").2.1 = Except.ok 0 ∧
    get_proposal (create_proposal (VotingSystem.new 0) 0 "X").1 0 = Except.ok ("X", 0) :=
  ⟨rfl, create_then_get (VotingSystem.new 0) 0 "X" 0 rfl⟩

theorem vote_preserves_count (s : VotingSystem) (c : AccountId) (k : Nat) :
    (vote s c k).1.proposal_count = s.proposal_count := by
  unfold vote
  rcases hm : s.proposals k with _ | p <;> simp only [hm]
  split <;> rfl

theorem vote_preserves_owner (s : VotingSystem) (c : AccountId) (k : Nat) :
    (vote s c k).1.owner = s.owner := by
  unfold vote
  rcases hm : s.proposals k with _ | p <;> simp only [hm]
  split <;> rfl

theorem create_preserves_owner (s : VotingSystem) (c : AccountId) (t : String) :
    (create_proposal s c t).1.owner = s.owner := by
  unfold create_proposal
  split <;> rfl

theorem execOp_owner (s : VotingSystem) (op : Op) : (execOp s op).owner = s.owner := by
  cases op with
  | create c t => exact create_preserves_owner s c t
  | voteFor c k => exact vote_preserves_owner s c k
  | get c k => rfl
  | total c => rfl

theorem execOps_cons (s : VotingSystem) (op : Op) (ops : List Op) :
    execOps s (op :: ops) = execOps (execOp s op) ops := rfl

theorem execOps_owner (s : VotingSystem) (ops : List Op) :
    (execOps s ops).owner = s.owner := by
  induction ops generalizing s with
  | nil => rfl
  | cons op ops ih => rw [execOps_cons, ih, execOp_owner]

theorem vote_already_voted (w : VotingSystem) (c : AccountId) (k : Nat) (q : Proposal)
    (hm : w.proposals k = some q) (hv : w.voters (k, c) = some true) :
    vote w c k = (w, Except.error Error.AlreadyVoted, []) := by
  simp [vote, hm, hv]

/-- C5: whenever `vote` returns an error, the state is returned unchanged and
no `VoteCast` event is emitted; and after a successful `vote k`, a second
`vote k` by the same caller fails with `AlreadyVoted` and leaves the state
(hence the vote count of `k`) unchanged. -/
theorem vote_error_frame (s : VotingSystem) (c : AccountId) (k : Nat) :
    (∀ e, (vote s c k).2.1 = Except.error e →
      (vote s c k).1 = s ∧ (vote s c k).2.2 = []) ∧
    ((vote s c k).2.1 = Except.ok () →
      (vote (vote s c k).1 c k).2.1 = Except.error Error.AlreadyVoted ∧
      (vote (vote s c k).1 c k).1 = (vote s c k).1) := by
  rcases hm : s.proposals k with _ | p
  · constructor
    · intro e _
      constructor <;> simp [vote, hm]
    · intro h
      simp [vote, hm] at h
  · by_cases hv : (s.voters (k, c)).getD false
    · constructor
      · intro e _
        constructor <;> simp [vote, hm, hv]
      · intro h
        simp [vote, hm, hv] at h
    · constructor
      · intro e he
        simp [vote, hm, hv] at he
      · intro _
        have h1 : (vote s c k).1.proposals k =
            some { description := p.description, votes := satAdd p.votes 1 } := by
          simp [vote, hm, hv, Mapping.insert_self]
        have h2 : (vote s c k).1.voters (k, c) = some true := by
          simp [vote, hm, hv, Mapping.insert_self]
        have h3 := vote_already_voted (vote s c k).1 c k _ h1 h2
        rw [h3]
        exact ⟨rfl, rfl⟩

theorem vote_error_frame_witness :
    ((vote (VotingSystem.new 0) 3 0).1 = VotingSystem.new 0 ∧
      (vote (VotingSystem.new 0) 3 0).2.2 = []) ∧
    ((vote (vote sampleOne 7 0).1 7 0).2.1 = Except.error Error.AlreadyVoted ∧
      (vote (vote sampleOne 7 0).1 7 0).1 = (vote sampleOne 7 0).1) :=
  ⟨(vote_error_frame (VotingSystem.new 0) 3 0).1 Error.ProposalDoesNotExist rfl,
   (vote_error_frame sampleOne 7 0).2 rfl⟩

/-- C8: on every state whose counter is in `u32` range, a successful
`create_proposal` sets the counter to `min (count + 1) U32_MAX` (plus one,
clamped at the maximum, never wrapping), a failed one leaves it unchanged,
`vote` leaves it unchanged, and no operation ever decreases it. -/
theorem proposal_count_step (s : VotingSystem) (c : AccountId) (t : String) (k : Nat)
    (op : Op) (hle : s.proposal_count ≤ U32_MAX) :
    (isOkE (create_proposal s c t).2.1 = true →
      (create_proposal s c t).1.proposal_count = min (s.proposal_count + 1) U32_MAX) ∧
    (isOkE (create_proposal s c t).2.1 = false →
      (create_proposal s c t).1.proposal_count = s.proposal_count) ∧
    (vote s c k).1.proposal_count = s.proposal_count ∧
    s.proposal_count ≤ (execOp s op).proposal_count := by
  refine ⟨?_, ?_, vote_preserves_count s c k, ?_⟩
  · intro h
    by_cases hc : c ≠ s.owner
    · simp [create_proposal, hc, isOkE] at h
    · simp [create_proposal, hc, satAdd]
  · intro h
    by_cases hc : c ≠ s.owner
    · simp [create_proposal, hc]
    · simp [create_proposal, hc, isOkE] at h
  · cases op with
    | create c' t' =>
        by_cases hc : c' ≠ s.owner
        · simp [execOp, create_proposal, hc]
        · simp only [execOp, create_proposal, hc, if_false, ite_false, if_neg]
          simp [satAdd]
          omega
    | voteFor c' k' => rw [execOp, vote_preserves_count]
    | get c' k' => exact Nat.le_refl _
    | total c' => exact Nat.le_refl _

theorem proposal_count_step_witness :
    (VotingSystem.new 0).proposal_count ≤ U32_MAX ∧
    (isOkE (create_proposal (VotingSystem.new 0) 0 "A").2.1 = true →
      (create_proposal (VotingSystem.new 0) 0 "A").1.proposal_count =
        min ((VotingSystem.new 0).proposal_count + 1) U32_MAX) ∧
    (vote (VotingSystem.new 0) 0 0).1.proposal_count = (VotingSystem.new 0).proposal_count :=
  ⟨by decide,
   (proposal_count_step (VotingSystem.new 0) 0 "A" 0 (Op.total 0) (by decide)).1,
   (proposal_count_step (VotingSystem.new 0) 0 "A" 0 (Op.total 0) (by decide)).2.2.1⟩

/-- C10: `get_proposal` and `total_proposals` are read-only: they leave the
whole state unchanged and emit no event, for every input and caller. -/
theorem reads_pure (s : VotingSystem) (c : AccountId) (k : Nat) :
    execOp s (Op.get c k) = s ∧ opEvents s (Op.get c k) = [] ∧
    execOp s (Op.total c) = s ∧ opEvents s (Op.total c) = [] :=
  ⟨rfl, rfl, rfl, rfl⟩

/-! The state invariant is inductive over the message calls. -/

theorem stateInv_new (o : AccountId) : StateInv (VotingSystem.new o) := by
  refine ⟨Nat.zero_le _, ?_, ?_, ?_, ?_⟩
  · intro id h
    exact absurd h (Nat.not_lt_zero id)
  · intro id _
    rfl
  · intro h
    simp [VotingSystem.new, Mapping.empty] at h
  · intro p v h
    simp [VotingSystem.new, Mapping.empty] at h

theorem create_ok_state (s : VotingSystem) (c : AccountId) (t : String)
    (hc : ¬c ≠ s.owner) :
    create_proposal s c t =
      ({ proposals := Mapping.insert s.proposals s.proposal_count
            { description := t, votes := 0 }
         voters := s.voters
         proposal_count := satAdd s.proposal_count 1
         owner := s.owner },
       Except.ok s.proposal_count,
       [Event.ProposalCreated s.proposal_count t]) := by
  simp [create_proposal, hc]

theorem stateInv_create (s : VotingSystem) (c : AccountId) (t : String) (h : StateInv s) :
    StateInv (create_proposal s c t).1 := by
  by_cases hc : c ≠ s.owner
  · simpa [create_proposal, hc] using h
  · obtain ⟨hle, h1, h2, h3, h4⟩ := h
    rw [create_ok_state s c t hc]
    refine ⟨?_, ?_, ?_, ?_, ?_⟩ <;> dsimp only
    · exact Nat.min_le_right _ _
    · intro id hid
      by_cases he : id = s.proposal_count
      · subst he
        rw [Mapping.insert_self]
        rfl
      · rw [Mapping.insert_ne _ _ _ _ he]
        refine h1 id ?_
        simp only [satAdd] at hid
        omega
    · intro id hid
      simp only [satAdd] at hid
      have hne : id ≠ s.proposal_count := by omega
      rw [Mapping.insert_ne _ _ _ _ hne]
      exact h2 id (by omega)
    · intro hsome
      simp only [satAdd] at hsome ⊢
      by_cases hlt : s.proposal_count < U32_MAX
      · exfalso
        have he : min (s.proposal_count + 1) U32_MAX = s.proposal_count + 1 := by omega
        rw [he] at hsome
        rw [Mapping.insert_ne _ _ _ _ (by omega)] at hsome
        have := h2 (s.proposal_count + 1) (by omega)
        rw [this] at hsome
        exact Bool.false_ne_true hsome
      · omega
    · intro p v hpv
      have := h4 p v hpv
      simp only [satAdd]
      omega

theorem stateInv_vote (s : VotingSystem) (c : AccountId) (k : Nat) (h : StateInv s) :
    StateInv (vote s c k).1 := by
  rcases hm : s.proposals k with _ | p
  · simpa [vote, hm] using h
  · by_cases hv : (s.voters (k, c)).getD false
    · simpa [vote, hm, hv] using h
    · obtain ⟨hle, h1, h2, h3, h4⟩ := h
      have hkle : k ≤ s.proposal_count := by
        by_contra hgt
        push_neg at hgt
        rw [h2 k hgt] at hm
        cases hm
      have hred : (vote s c k).1 =
          { proposals := Mapping.insert s.proposals k
              { description := p.description, votes := satAdd p.votes 1 }
            voters := Mapping.insert s.voters (k, c) true
            proposal_count := s.proposal_count
            owner := s.owner } := by
        simp [vote, hm, hv]
      rw [hred]
      refine ⟨hle, ?_, ?_, ?_, ?_⟩ <;> dsimp only
      · intro id hid
        by_cases he : id = k
        · subst he
          rw [Mapping.insert_self]
          rfl
        · rw [Mapping.insert_ne _ _ _ _ he]
          exact h1 id hid
      · intro id hid
        have hne : id ≠ k := by omega
        rw [Mapping.insert_ne _ _ _ _ hne]
        exact h2 id hid
      · intro hsome
        by_cases he : s.proposal_count = k
        · refine h3 ?_
          rw [he, hm]
          rfl
        · rw [Mapping.insert_ne _ _ _ _ he] at hsome
          exact h3 hsome
      · intro p' v hpv
        by_cases he : (p', v) = (k, c)
        · have hpk : p' = k := congrArg Prod.fst he
          subst hpk
          rcases Nat.lt_or_ge p' s.proposal_count with hlt | hge
          · exact Or.inl hlt
          · have hpe : p' = s.proposal_count := by omega
            refine Or.inr ⟨hpe, h3 ?_⟩
            rw [← hpe, hm]
            rfl
        · rw [Mapping.insert_ne _ _ _ _ he] at hpv
          exact h4 p' v hpv

theorem stateInv_execOp (s : VotingSystem) (op : Op) (h : StateInv s) : StateInv (execOp s op) := by
  cases op with
  | create c t => exact stateInv_create s c t h
  | voteFor c k => exact stateInv_vote s c k h
  | get c k => exact h
  | total c => exact h

theorem stateInv_execOps (ops : List Op) : ∀ s : VotingSystem, StateInv s → StateInv (execOps s ops) := by
  induction ops with
  | nil => intro s h; exact h
  | cons op ops ih =>
      intro s h
      rw [execOps_cons]
      exact ih (execOp s op) (stateInv_execOp s op h)

theorem reachable_inv (s : VotingSystem) (h : Reachable s) : StateInv s := by
  obtain ⟨o, ops, rfl⟩ := h
  exact stateInv_execOps ops (VotingSystem.new o) (stateInv_new o)

/-- C7 (amended): in every reachable state the proposals mapping has a record
for every id below `proposal_count` and none for any id above it; a record at
id `proposal_count` itself can exist only when the counter has saturated at
`U32_MAX`, and every voter key `(p, v)` satisfies `p < proposal_count` except
possibly `p = proposal_count = U32_MAX`. -/
theorem reachable_state_invariant (s : VotingSystem) (h : Reachable s) :
    (∀ id, id < s.proposal_count → (s.proposals id).isSome = true) ∧
    (∀ id, s.proposal_count < id → s.proposals id = none) ∧
    ((s.proposals s.proposal_count).isSome = true → s.proposal_count = U32_MAX) ∧
    (∀ p v, (s.voters (p, v)).isSome = true →
      p < s.proposal_count ∨ (p = s.proposal_count ∧ s.proposal_count = U32_MAX)) := by
  obtain ⟨_, h1, h2, h3, h4⟩ := reachable_inv s h
  exact ⟨h1, h2, h3, h4⟩

theorem reachable_state_invariant_witness :
    (sampleOne.proposals 0).isSome = true ∧ sampleOne.proposals 7 = none := by
  have h := reachable_state_invariant sampleOne ⟨0, [Op.create 0 "A"], rfl⟩
  exact ⟨h.1 0 (by decide), h.2.1 7 (by decide)⟩

/-- C6 (amended): in every reachable state, `get_proposal id` and `vote id`
both fail with `ProposalDoesNotExist` whenever `id > total_proposals()`, and
also when `id = total_proposals() < U32_MAX`; when the counter has saturated
(`total_proposals() = U32_MAX`) the id `U32_MAX` itself may refer to an
existing record. For `id < total_proposals()`, `get_proposal` succeeds and
`vote` never fails with `ProposalDoesNotExist`. -/
theorem lookup_vs_count (s : VotingSystem) (h : Reachable s) (id : Nat) (c : AccountId) :
    ((total_proposals s < id ∨ (id = total_proposals s ∧ total_proposals s < U32_MAX)) →
      get_proposal s id = Except.error Error.ProposalDoesNotExist ∧
      (vote s c id).2.1 = Except.error Error.ProposalDoesNotExist) ∧
    (id < total_proposals s →
      (∃ d n, get_proposal s id = Except.ok (d, n)) ∧
      (vote s c id).2.1 ≠ Except.error Error.ProposalDoesNotExist) := by
  obtain ⟨_, h1, h2, h3, h4⟩ := reachable_inv s h
  constructor
  · intro hcase
    have hnone : s.proposals id = none := by
      rcases hcase with hgt | ⟨he, hlt⟩
      · exact h2 id hgt
      · rcases hsome : s.proposals id with _ | q
        · rfl
        · exfalso
          have he' : id = s.proposal_count := he
          have hcnt : s.proposal_count = U32_MAX := by
            refine h3 ?_
            rw [← he', hsome]
            rfl
          have hlt' : s.proposal_count < U32_MAX := hlt
          omega
    constructor
    · simp [get_proposal, hnone]
    · simp [vote, hnone]
  · intro hlt
    have hsome := h1 id hlt
    rcases hq : s.proposals id with _ | q
    · rw [hq] at hsome
      cases hsome
    · constructor
      · exact ⟨q.description, q.votes, by simp [get_proposal, hq]⟩
      · by_cases hv : (s.voters (id, c)).getD false
        · intro hcontra
          simp [vote, hq, hv] at hcontra
        · intro hcontra
          simp [vote, hq, hv] at hcontra

/-! Counting successful creations along a trace. -/

theorem create_ok_id (s : VotingSystem) (c : AccountId) (t : String) (k : Nat)
    (h : (create_proposal s c t).2.1 = Except.ok k) : k = s.proposal_count := by
  by_cases hc : c ≠ s.owner
  · simp [create_proposal, hc] at h
  · rw [create_ok_state s c t hc] at h
    simp at h
    omega

theorem count_execOps (ops : List Op) :
    ∀ s : VotingSystem, s.proposal_count ≤ U32_MAX →
    (execOps s ops).proposal_count = min (s.proposal_count + countCreates s ops) U32_MAX := by
  induction ops with
  | nil =>
      intro s h
      simp [execOps, countCreates]
      omega
  | cons op ops ih =>
      intro s h
      rw [execOps_cons]
      cases op with
      | create c t =>
          by_cases hc : c ≠ s.owner
          · have he : execOp s (Op.create c t) = s := by
              simp [execOp, create_proposal, hc]
            have hcc : countCreates s (Op.create c t :: ops) =
                countCreates (execOp s (Op.create c t)) ops := by
              simp [countCreates, create_proposal, hc, isOkE]
            rw [hcc, he]
            exact ih s h
          · have hs1 : (execOp s (Op.create c t)).proposal_count =
                min (s.proposal_count + 1) U32_MAX := by
              simp [execOp, create_proposal, hc, satAdd]
            have hcc : countCreates s (Op.create c t :: ops) =
                1 + countCreates (execOp s (Op.create c t)) ops := by
              simp [countCreates, create_proposal, hc, isOkE]
            rw [hcc, ih (execOp s (Op.create c t)) (by rw [hs1]; exact Nat.min_le_right _ _),
              hs1]
            omega
      | voteFor c k =>
          have he : (execOp s (Op.voteFor c k)).proposal_count = s.proposal_count :=
            vote_preserves_count s c k
          have hcc : countCreates s (Op.voteFor c k :: ops) =
              countCreates (execOp s (Op.voteFor c k)) ops := by
            simp [countCreates]
          rw [hcc, ih (execOp s (Op.voteFor c k)) (by rw [he]; exact h), he]
      | get c k =>
          have hcc : countCreates s (Op.get c k :: ops) =
              countCreates (execOp s (Op.get c k)) ops := by
            simp [countCreates]
          rw [hcc]
          exact ih s h
      | total c =>
          have hcc : countCreates s (Op.total c :: ops) =
              countCreates (execOp s (Op.total c)) ops := by
            simp [countCreates]
          rw [hcc]
          exact ih s h

theorem countCreates_replicate (o : AccountId) (t : String) :
    ∀ (n : Nat) (s : VotingSystem), s.owner = o →
    countCreates s (List.replicate n (Op.create o t)) = n := by
  intro n
  induction n with
  | zero => intro s _; rfl
  | succ n ih =>
      intro s hso
      rw [List.replicate_succ]
      have hc : ¬o ≠ s.owner := fun hne => hne hso.symm
      have hcc : countCreates s (Op.create o t :: List.replicate n (Op.create o t)) =
          1 + countCreates (execOp s (Op.create o t)) (List.replicate n (Op.create o t)) := by
        simp [countCreates, create_proposal, hc, isOkE]
      rw [hcc, ih (execOp s (Op.create o t)) (by rw [execOp_owner]; exact hso)]
      omega

/-- C2 (amended): starting from a fresh contract, as long as the number of
successful `create_proposal` calls stays within `u32` range (at most
`U32_MAX` prior successes), the next successful call returns an id equal to
the number of prior successful calls (so the n-th successful call returns
`n - 1`), and `total_proposals` equals the number of successful calls so far.
Beyond that point the counter saturates at `U32_MAX`. -/
theorem create_ids_sequential (o : AccountId) (ops : List Op) (c : AccountId) (t : String)
    (k : Nat) :
    (countCreates (VotingSystem.new o) ops ≤ U32_MAX →
      total_proposals (execOps (VotingSystem.new o) ops) =
        countCreates (VotingSystem.new o) ops) ∧
    ((create_proposal (execOps (VotingSystem.new o) ops) c t).2.1 = Except.ok k →
      countCreates (VotingSystem.new o) ops ≤ U32_MAX →
      k = countCreates (VotingSystem.new o) ops) := by
  have hcnt := count_execOps ops (VotingSystem.new o) (Nat.zero_le _)
  have h0 : (VotingSystem.new o).proposal_count = 0 := rfl
  constructor
  · intro h
    rw [total_proposals, hcnt, h0]
    omega
  · intro hok h
    have hk := create_ok_id _ _ _ _ hok
    rw [hk, hcnt, h0]
    omega

theorem create_ids_sequential_witness :
    total_proposals (execOps (VotingSystem.new 0) [Op.create 0 "A"]) =
      countCreates (VotingSystem.new 0) [Op.create 0 "A"] ∧
    1 = countCreates (VotingSystem.new 0) [Op.create 0 "A"] :=
  ⟨(create_ids_sequential 0 [Op.create 0 "A"] 0 "B" 1).1 (by decide),
   (create_ids_sequential 0 [Op.create 0 "A"] 0 "B" 1).2 rfl (by decide)⟩

/-- C2 counterexample: after `2 ^ 32` successful creations from a fresh
contract, the number of successful creations is `2 ^ 32` but `total_proposals`
is `U32_MAX = 2 ^ 32 - 1`: the counter saturated, so the claim as stated
(equality for every sequence) is false. -/
theorem create_ids_sequential_cex :
    countCreates (VotingSystem.new 0) satTrace = 2 ^ 32 ∧
    total_proposals (execOps (VotingSystem.new 0) satTrace) ≠ 2 ^ 32 := by
  have hcc : countCreates (VotingSystem.new 0) satTrace = 2 ^ 32 :=
    countCreates_replicate 0 "A" (2 ^ 32) (VotingSystem.new 0) rfl
  refine ⟨hcc, ?_⟩
  have hc := count_execOps satTrace (VotingSystem.new 0) (Nat.zero_le _)
  rw [total_proposals, hc, hcc]
  decide

/-! The saturated state: counter clamped at `U32_MAX`, record at `U32_MAX`. -/

theorem satState_pre_count :
    (execOps (VotingSystem.new 0) (List.replicate U32_MAX (Op.create 0 "A"))).proposal_count =
      U32_MAX := by
  rw [count_execOps _ _ (Nat.zero_le _), countCreates_replicate 0 "A" U32_MAX _ rfl]
  decide

theorem satState_eq :
    satState = execOp
      (execOps (VotingSystem.new 0) (List.replicate U32_MAX (Op.create 0 "A")))
      (Op.create 0 "A") := by
  rw [satState, satTrace]
  have h32 : (2 : Nat) ^ 32 = U32_MAX + 1 := by decide
  rw [h32, List.replicate_succ']
  rw [execOps, execOps, List.foldl_append, List.foldl_cons, List.foldl_nil]

theorem satState_pre_owner_ne :
    ¬(0 : AccountId) ≠
      (execOps (VotingSystem.new 0) (List.replicate U32_MAX (Op.create 0 "A"))).owner := by
  rw [execOps_owner]
  exact fun hne => hne rfl

theorem execOp_create_count (s : VotingSystem) (c : AccountId) (t : String)
    (hc : ¬c ≠ s.owner) :
    (execOp s (Op.create c t)).proposal_count = min (s.proposal_count + 1) U32_MAX := by
  show (create_proposal s c t).1.proposal_count = _
  rw [create_ok_state s c t hc]
  rfl

/-- A successful creation stores a fresh record at the allocated slot; stated
with the slot as a separate variable so it can be instantiated syntactically. -/
theorem create_sets_slot (s : VotingSystem) (c : AccountId) (t : String)
    (hc : ¬c ≠ s.owner) (k : Nat) (hk : k = s.proposal_count) :
    isOkE (create_proposal s c t).2.1 = true ∧
    (create_proposal s c t).1.proposals k = some { description := t, votes := 0 } := by
  subst hk
  rw [create_ok_state s c t hc]
  exact ⟨rfl, Mapping.insert_self _ _ _⟩

theorem execOp_create_at (s : VotingSystem) (c : AccountId) (t : String)
    (hc : ¬c ≠ s.owner) (k : Nat) (hk : k = s.proposal_count) :
    (execOp s (Op.create c t)).proposals k = some { description := t, votes := 0 } :=
  (create_sets_slot s c t hc k hk).2

theorem get_proposal_some (s : VotingSystem) (k : Nat) (d : String) (n : Nat)
    (h : s.proposals k = some { description := d, votes := n }) :
    get_proposal s k = Except.ok (d, n) := by
  simp [get_proposal, h]

theorem satState_count : satState.proposal_count = U32_MAX := by
  rw [satState_eq, execOp_create_count _ _ _ satState_pre_owner_ne, satState_pre_count]
  decide

theorem satState_at_max :
    satState.proposals U32_MAX = some { description := "A", votes := 0 } := by
  rw [satState_eq]
  exact execOp_create_at _ _ _ satState_pre_owner_ne U32_MAX satState_pre_count.symm

theorem satState_owner : satState.owner = 0 := by
  rw [satState_eq, execOp_owner, execOps_owner]
  rfl

theorem satState_owner_ne : ¬(0 : AccountId) ≠ satState.owner := by
  rw [satState_owner]
  exact fun h => h rfl

theorem satState_total : total_proposals satState = U32_MAX := by
  rw [total_proposals]
  exact satState_count

theorem lookup_vs_count_witness :
    (get_proposal sampleOne 5 = Except.error Error.ProposalDoesNotExist ∧
      (vote sampleOne 3 5).2.1 = Except.error Error.ProposalDoesNotExist) ∧
    ((∃ d n, get_proposal sampleOne 0 = Except.ok (d, n)) ∧
      (vote sampleOne 3 0).2.1 ≠ Except.error Error.ProposalDoesNotExist) :=
  ⟨(lookup_vs_count sampleOne ⟨0, [Op.create 0 "A"], rfl⟩ 5 3).1 (Or.inl (by decide)),
   (lookup_vs_count sampleOne ⟨0, [Op.create 0 "A"], rfl⟩ 0 3).2 (by decide)⟩

/-- C6 counterexample: the saturated state is reachable, the id `U32_MAX` is
not below `total_proposals` (both equal `U32_MAX`), yet `get_proposal U32_MAX`
succeeds instead of failing with `ProposalDoesNotExist`: after the counter
saturates, `id >= total_proposals()` no longer implies rejection. -/
theorem lookup_vs_count_cex :
    Reachable satState ∧
    total_proposals satState = U32_MAX ∧
    get_proposal satState U32_MAX = Except.ok ("A", 0) :=
  ⟨⟨0, satTrace, rfl⟩, satState_total,
   get_proposal_some satState U32_MAX "A" 0 satState_at_max⟩

/-- C7 counterexample: a reachable state stores a record at id `U32_MAX`,
which is not below `proposal_count` (both equal `U32_MAX`): the claimed "no
record for any id at or above proposal_count" fails once the counter has
saturated. -/
theorem reachable_state_invariant_cex :
    Reachable satState ∧
    satState.proposal_count = U32_MAX ∧
    satState.proposals U32_MAX = some { description := "A", votes := 0 } :=
  ⟨⟨0, satTrace, rfl⟩, satState_count, satState_at_max⟩

/-- C9 (amended): provided the slot at `proposal_count` is empty (which holds
in every state reachable by at most `U32_MAX` successful creations), every
existing proposal record survives `create_proposal` unchanged (no deletion, no
overwrite, description intact), and `vote` either leaves it unchanged or —
only for the voted id, on success — bumps its vote counter by 1 with
saturating arithmetic while keeping its description. -/
theorem record_frame (s : VotingSystem) (hfree : s.proposals s.proposal_count = none)
    (id : Nat) (p : Proposal) (hid : s.proposals id = some p) :
    (∀ c t, (create_proposal s c t).1.proposals id = some p) ∧
    (∀ c k, (vote s c k).1.proposals id = some p ∨
      (k = id ∧ isOkE (vote s c k).2.1 = true ∧
        (vote s c k).1.proposals id =
          some { description := p.description, votes := satAdd p.votes 1 })) := by
  constructor
  · intro c t
    by_cases hc : c ≠ s.owner
    · simp [create_proposal, hc, hid]
    · have hne : id ≠ s.proposal_count := by
        intro he
        rw [he, hfree] at hid
        cases hid
      rw [create_ok_state s c t hc]
      dsimp only
      rw [Mapping.insert_ne _ _ _ _ hne]
      exact hid
  · intro c k
    rcases hm : s.proposals k with _ | q
    · left
      simp [vote, hm, hid]
    · by_cases hv : (s.voters (k, c)).getD false
      · left
        simp [vote, hm, hv, hid]
      · by_cases hk : k = id
        · right
          refine ⟨hk, ?_, ?_⟩
          · simp [vote, hm, hv, isOkE]
          · subst hk
            have hq : q = p := by
              rw [hm] at hid
              exact (Option.some.injEq q p).mp hid
            simp [vote, hm, hv, Mapping.insert_self, hq]
        · left
          have hne : id ≠ k := fun he => hk he.symm
          simp [vote, hm, hv, Mapping.insert_ne _ _ _ _ hne, hid]

theorem record_frame_witness :
    (create_proposal sampleOne 0 "B").1.proposals 0 =
      some { description := "A", votes := 0 } ∧
    ((vote sampleOne 5 0).1.proposals 0 = some { description := "A", votes := 0 } ∨
      ((0 : Nat) = 0 ∧ isOkE (vote sampleOne 5 0).2.1 = true ∧
        (vote sampleOne 5 0).1.proposals 0 =
          some { description := "A", votes := satAdd 0 1 })) :=
  ⟨(record_frame sampleOne rfl 0 { description := "A", votes := 0 } rfl).1 0 "B",
   (record_frame sampleOne rfl 0 { description := "A", votes := 0 } rfl).2 5 0⟩

/-- C9 counterexample: in the reachable saturated state a record exists at id
`U32_MAX`, yet a further successful `create_proposal` overwrites it and
changes its description from "A" to "B": with the counter saturated, creation
reuses id `U32_MAX` and edits an existing record. -/
theorem record_frame_cex :
    Reachable satState ∧
    satState.proposals U32_MAX = some { description := "A", votes := 0 } ∧
    isOkE (create_proposal satState 0 "B").2.1 = true ∧
    (create_proposal satState 0 "B").1.proposals U32_MAX =
      some { description := "B", votes := 0 } :=
  ⟨⟨0, satTrace, rfl⟩, satState_at_max,
   (create_sets_slot satState 0 "B" satState_owner_ne U32_MAX satState_count.symm).1,
   (create_sets_slot satState 0 "B" satState_owner_ne U32_MAX satState_count.symm).2⟩

/-! Vote counting by a list of distinct callers. -/

theorem voteSeq_votes (k : Nat) :
    ∀ (cs : List AccountId) (s : VotingSystem) (p : Proposal),
    s.proposals k = some p → p.votes ≤ U32_MAX → (voteSeq s k cs).2 = true →
    (voteSeq s k cs).1.proposals k =
      some { description := p.description, votes := min (p.votes + cs.length) U32_MAX } := by
  intro cs
  induction cs with
  | nil =>
      intro s p hp hle _
      simp only [voteSeq, List.length_nil]
      have harith : min (p.votes + 0) U32_MAX = p.votes := by omega
      rw [harith, hp]
  | cons c cs ih =>
      intro s p hp hle hall
      simp only [voteSeq, Bool.and_eq_true] at hall
      obtain ⟨hok, hrest⟩ := hall
      by_cases hv : (s.voters (k, c)).getD false
      · simp [vote, hp, hv, isOkE] at hok
      · have hs1 : (vote s c k).1.proposals k =
            some { description := p.description, votes := satAdd p.votes 1 } := by
          simp [vote, hp, hv, Mapping.insert_self]
        have hle1 : satAdd p.votes 1 ≤ U32_MAX := Nat.min_le_right _ _
        have hmain := ih (vote s c k).1
          { description := p.description, votes := satAdd p.votes 1 } hs1 hle1 hrest
        have harith : min (satAdd p.votes 1 + cs.length) U32_MAX =
            min (p.votes + (cs.length + 1)) U32_MAX := by
          simp only [satAdd]
          omega
        simp only [voteSeq, List.length_cons]
        rw [hmain, harith]

/-- C4: if, on a proposal `k` whose current vote count is 0, each caller in a
duplicate-free list casts one `vote k` and every call succeeds, then
`get_proposal k` afterwards reports a vote count equal to the number of
callers `m` (for `m` within `u32` range, so the counter does not saturate). -/
theorem distinct_voters_counted (s : VotingSystem) (k : Nat) (p : Proposal) (m : Nat)
    (callers : List AccountId) (hp : s.proposals k = some p) (hz : p.votes = 0)
    (_hnd : callers.Nodup) (hm : callers.length = m) (hsat : m ≤ U32_MAX)
    (hall : (voteSeq s k callers).2 = true) :
    get_proposal (voteSeq s k callers).1 k = Except.ok (p.description, m) := by
  have hv := voteSeq_votes k callers s p hp (by omega) hall
  have harith : min (p.votes + callers.length) U32_MAX = m := by omega
  rw [harith] at hv
  exact get_proposal_some _ _ _ _ hv

theorem distinct_voters_counted_witness :
    ([3, 4] : List AccountId).Nodup ∧ (2 : Nat) ≤ U32_MAX ∧
    get_proposal (voteSeq sampleOne 0 [3, 4]).1 0 = Except.ok ("A", 2) :=
  ⟨by decide, by decide,
   distinct_voters_counted sampleOne 0 { description := "A", votes := 0 } 2 [3, 4]
     rfl rfl (by decide) rfl (by decide) rfl⟩
